import Mathlib

/-!
Verification of the benchcmp orchestration logic (src/main.go) against its
natural-language specification. The Go source is shallowly embedded: pure
control flow becomes Lean functions, external collaborators (git queries,
subprocess spawning, the filesystem) become explicit oracle parameters whose
outcomes the theorems quantify over.
-/

namespace Benchcmp

/-! ## File sets (Go `fileSet = map[string]struct{}`, src/main.go:286)

The Go map-used-as-set is embedded as a `List String` recording insertion
order, with idempotent insertion; Go map iteration order is arbitrary, which
the theorems account for by quantifying over permutations of the contents. -/

abbrev fileSet := List String

/-- Insertion of a name into a `fileSet` (Go `bs.testFiles[f] = struct{}{}`):
idempotent on names already present. -/
def fileSetInsert (fs : fileSet) (x : String) : fileSet :=
  if x ∈ fs then fs else fs ++ [x]

/-- Embedding of `benchSuite.intersectTests` (src/main.go:381-389): keep the
names of `a` that are members of `b`. -/
def intersectTests (a b : fileSet) : fileSet :=
  a.filter (fun f => decide (f ∈ b))

/-- Embedding of `fileSet.sorted` (src/main.go:391-398): collect the
elements and sort them with `sort.Strings` (lexicographic `≤`). -/
def fileSetSorted (fs : fileSet) : List String :=
  List.insertionSort (fun a b => a ≤ b) fs

/-! ## The interleaved runner (src/main.go:186-252)

`spawnWith` executes a benchmark binary; its outcome is abstracted as a
`SpawnOutcome` oracle: normal exit, exit with a status code wrapped in
`exec.ExitError`, or any other spawn error. -/

inductive SuiteId
  | old
  | new
deriving DecidableEq, Repr

/-- An execution event: which suite's binary ran for which test. -/
structure Exec where
  suite : SuiteId
  test : String
deriving DecidableEq, Repr

inductive SpawnOutcome
  | ok
  | exitErr (code : Int)
  | otherErr
deriving DecidableEq, Repr

inductive RunErr
  | runError
deriving DecidableEq, Repr

/-- Result of `runSingleBench`: the returned error (if any) and whether the
"saw one or more benchmark failures" message was printed. -/
structure RSBResult where
  err : Option RunErr
  loggedFailure : Bool
deriving DecidableEq, Repr

/-- Embedding of `runSingleBench` (src/main.go:224-252): exit status 1 is
logged and swallowed; any other non-zero exit status or spawn failure is
returned as a fatal error. -/
def runSingleBench (outcome : SpawnOutcome) : RSBResult :=
  match outcome with
  | .ok => ⟨none, false⟩
  | .exitErr c => if c = 1 then ⟨none, true⟩ else ⟨some .runError, false⟩
  | .otherErr => ⟨some .runError, false⟩

/-- One iteration of the inner loop of `runbenchcmpes` (src/main.go:202-207):
run the old suite's binary, and only if that did not return an error, the
new suite's binary. Returns the executions performed and the first error. -/
def runIter (spawn : SuiteId → String → SpawnOutcome) (t : String) :
    List Exec × Option RunErr :=
  match (runSingleBench (spawn .old t)).err with
  | some e => ([⟨.old, t⟩], some e)
  | none =>
    match (runSingleBench (spawn .new t)).err with
    | some e => ([⟨.old, t⟩, ⟨.new, t⟩], some e)
    | none => ([⟨.old, t⟩, ⟨.new, t⟩], none)

/-- The `for j := 0; j < itersPerTest; j++` loop of `runbenchcmpes`
(src/main.go:193-208) for one test. -/
def runIters (spawn : SuiteId → String → SpawnOutcome) (t : String) :
    Nat → List Exec × Option RunErr
  | 0 => ([], none)
  | n + 1 =>
    match runIter spawn t with
    | (es, some e) => (es, some e)
    | (es, none) =>
      match runIters spawn t n with
      | (es2, r2) => (es ++ es2, r2)

/-- Embedding of `runbenchcmpes` (src/main.go:186-212): for each test in
order, run all iterations; an error from any single run aborts the whole
loop. The first component is the sequence of binary executions performed. -/
def runbenchcmpes (spawn : SuiteId → String → SpawnOutcome)
    (tests : List String) (itersPerTest : Nat) : List Exec × Option RunErr :=
  match tests with
  | [] => ([], none)
  | t :: ts =>
    match runIters spawn t itersPerTest with
    | (es, some e) => (es, some e)
    | (es, none) =>
      match runbenchcmpes spawn ts itersPerTest with
      | (es2, r2) => (es ++ es2, r2)

/-! ## The suite builder (src/main.go:295-366)

`benchSuite.build` mixes pure control flow (in src/main.go) with filesystem
and toolchain collaborators (`os.MkdirAll`, `os.Stat`, `ioutil.ReadDir`,
`checkoutRef`, `expandPackages`, `buildTestBin`). The collaborators' outcomes
are gathered in a `BuildEnv` oracle; the embedding reproduces the branch
structure of `build`, including the `defer os.RemoveAll(bs.binDir)` rollback
that is installed only after `binDir` is created on the cache-miss path. -/

inductive BuildErr
  | fsErr
  | unexpectedDir (name : String)
  | checkoutErr
  | expandErr
  | compileErr
deriving DecidableEq, Repr

inductive BuildOutcome
  | panicked
  | errored (e : BuildErr)
  | ok
deriving DecidableEq, Repr

/-- Outcome of `buildTestBin` for one package: an error, no benchmark binary
produced (a package without benchmarks), or a binary with the given name. -/
inductive CompileOut
  | err
  | noBin
  | bin (name : String)
deriving DecidableEq, Repr

structure DirEntry where
  name : String
  isDir : Bool
deriving DecidableEq, Repr

/-- Oracle for the collaborator calls made by `benchSuite.build`, in program
order: creating the artifact dir, opening the output file, `os.Stat` on
`binDir` (`statOk = false` is an error that is neither nil nor IsNotExist;
`binDirExists0` is the pre-call existence of `binDir`), reading the cached
dir (`none` = read error), creating `binDir`, checkout plus post-checkout
hook, package expansion, and per-package compilation. -/
structure BuildEnv where
  mkArtDirOk : Bool
  openOutOk : Bool
  statOk : Bool
  binDirExists0 : Bool
  readDir : Option (List DirEntry)
  mkBinDirOk : Bool
  checkoutOk : Bool
  expand : Option (List String)
  compile : String → CompileOut

/-- Observable result of `benchSuite.build`: how it returned, whether
`binDir` exists afterwards, the suite's `testFiles`, and whether any
checkout or any `buildTestBin` call was performed. -/
structure BuildRes where
  outcome : BuildOutcome
  binDirExists : Bool
  testFiles : fileSet
  didCheckout : Bool
  didCompile : Bool
deriving Repr

/-- The cache-hit loop of `build` (src/main.go:321-326): register each
regular file's name; a subdirectory stops the loop with an error. -/
def registerEntries (tf : fileSet) : List DirEntry → fileSet × Option BuildErr
  | [] => (tf, none)
  | e :: es =>
    if e.isDir then (tf, some (.unexpectedDir e.name))
    else registerEntries (fileSetInsert tf e.name) es

/-- The cache-miss compile loop of `build` (src/main.go:356-363): build each
package; an error is terminal, a package without benchmarks is skipped. -/
def compilePkgs (compile : String → CompileOut) (tf : fileSet) :
    List String → fileSet × Option BuildErr
  | [] => (tf, none)
  | p :: ps =>
    match compile p with
    | .err => (tf, some .compileErr)
    | .noBin => compilePkgs compile tf ps
    | .bin n => compilePkgs compile (fileSetInsert tf n) ps

/-- Embedding of `benchSuite.build` (src/main.go:295-366). `tf0` is the
suite's `testFiles` at entry; a non-empty `tf0` panics before any effect.
On the cache-miss path, once `binDir` is created every error return passes
through the deferred `os.RemoveAll(bs.binDir)`, so `binDirExists = false`
on those paths. -/
def benchSuiteBuild (env : BuildEnv) (tf0 : fileSet) : BuildRes :=
  if tf0 ≠ [] then ⟨.panicked, env.binDirExists0, tf0, false, false⟩
  else if env.mkArtDirOk = false then
    ⟨.errored .fsErr, env.binDirExists0, tf0, false, false⟩
  else if env.openOutOk = false then
    ⟨.errored .fsErr, env.binDirExists0, tf0, false, false⟩
  else if env.statOk = false then
    ⟨.errored .fsErr, env.binDirExists0, tf0, false, false⟩
  else if env.binDirExists0 then
    match env.readDir with
    | none => ⟨.errored .fsErr, true, tf0, false, false⟩
    | some entries =>
      match registerEntries tf0 entries with
      | (tf, some e) => ⟨.errored e, true, tf, false, false⟩
      | (tf, none) => ⟨.ok, true, tf, false, false⟩
  else if env.mkBinDirOk = false then ⟨.errored .fsErr, false, tf0, false, false⟩
  else if env.checkoutOk = false then ⟨.errored .checkoutErr, false, tf0, true, false⟩
  else
    match env.expand with
    | none => ⟨.errored .expandErr, false, tf0, true, false⟩
    | some pkgs =>
      match compilePkgs env.compile tf0 pkgs with
      | (tf, some e) => ⟨.errored e, false, tf, true, !pkgs.isEmpty⟩
      | (tf, none) => ⟨.ok, true, tf, true, !pkgs.isEmpty⟩

/-! ## Ref resolution (src/main.go:139-168)

The git primitives `getCurRef`, `getPrevRef`, `shortenRef`, `checkValidRef`
are repository code outside src/ and are treated, as the spec does, as a
revision-control collaborator: an oracle `GitEnv`. `parseGitRefs` itself is
embedded from src/main.go. -/

structure GitEnv where
  curRef : Option String
  prevRef : String → Option String
  shorten : String → String
  valid : String → Option Bool

inductive GitErr
  | gitErr
  | invalidRef (r : String)
deriving DecidableEq, Repr

/-- Embedding of `parseGitRefs` (src/main.go:139-168): default `newRef` to
the current revision, shorten it, validate it; then default `oldRef` to the
parent of the resolved `newRef`, shorten it, validate it. Returns
`(oldRef, newRef)`. -/
def parseGitRefs (g : GitEnv) (oldRef0 newRef0 : String) :
    Except GitErr (String × String) :=
  match (if newRef0 = "" then
          match g.curRef with
          | none => Except.error GitErr.gitErr
          | some r => Except.ok r
        else Except.ok newRef0 : Except GitErr String) with
  | .error e => .error e
  | .ok newRef1 =>
    let newRef := g.shorten newRef1
    match g.valid newRef with
    | none => .error .gitErr
    | some false => .error (.invalidRef newRef)
    | some true =>
      match (if oldRef0 = "" then
              match g.prevRef newRef with
              | none => Except.error GitErr.gitErr
              | some r => Except.ok r
            else Except.ok oldRef0 : Except GitErr String) with
      | .error e => .error e
      | .ok oldRef1 =>
        let oldRef := g.shorten oldRef1
        match g.valid oldRef with
        | none => .error .gitErr
        | some false => .error (.invalidRef oldRef)
        | some true => .ok (oldRef, newRef)

/-! ## The build phase orchestrator (src/main.go:170-184)

`buildBenches` queries the current symbolic ref (`getCurSymbolicRef`, a
collaborator) and, when one exists, defers exactly one restoring
`checkoutRef`. The embedding records a trace of events. -/

inductive SymRefRes
  | err
  | notFound
  | found (ref : String)
deriving DecidableEq, Repr

inductive BBEvent
  | build (i : Nat)
  | restore (ref : String)
deriving DecidableEq, Repr

/-- The `for _, bs := range bss` loop of `buildBenches` (src/main.go:178-182):
build suites in order, stopping after the first failing build. `buildOk i`
tells whether suite `i` builds successfully. The Bool is overall success. -/
def runBuilds (buildOk : Nat → Bool) : Nat → Nat → List BBEvent × Bool
  | _, 0 => ([], true)
  | i, k + 1 =>
    if buildOk i then
      match runBuilds buildOk (i + 1) k with
      | (es, ok) => (.build i :: es, ok)
    else ([.build i], false)

/-- Embedding of `buildBenches` (src/main.go:170-184) over `numSuites`
suites: a symbolic-ref query error aborts before any build; otherwise the
builds run, and if a symbolic ref was found, the deferred restoring checkout
runs exactly once after them, on success and on failure alike. -/
def buildBenches (sym : SymRefRes) (buildOk : Nat → Bool) (numSuites : Nat) :
    List BBEvent × Bool :=
  match sym with
  | .err => ([], false)
  | .notFound => runBuilds buildOk 0 numSuites
  | .found r =>
    match runBuilds buildOk 0 numSuites with
    | (es, ok) => (es ++ [.restore r], ok)

/-! ## The top-level `run` pipeline (src/main.go:66-137)

`run` is embedded as a phase trace: which of help, ref parsing, sheets
setup, suite building, benchmark running and reporting are reached, and the
resulting error. `main` maps a `nil` error to exit code 0 and anything else
to exit code 1 (src/main.go:66-71). -/

inductive RunPhase
  | help
  | parseRefs
  | sheets
  | build
  | benchRun
  | report
deriving DecidableEq, Repr

inductive TopErr
  | git (e : GitErr)
  | sheetsErr
  | buildErr
  | runErr
  | reportErr
deriving DecidableEq, Repr

/-- Abstract lines printed by `runHelp` (src/main.go:132-137): the usage
line, a blank line, and the help text. -/
inductive OutputLine
  | usageLine
  | blankLine
  | helpText
deriving DecidableEq, Repr

/-- Embedding of `runHelp` (src/main.go:132-137): prints usage, a blank
line and the help string, and returns `nil`. -/
def runHelp : List OutputLine × Option TopErr :=
  ([.usageLine, .blankLine, .helpText], none)

/-- Oracle for one invocation of `run` (src/main.go:73-130): the parsed
flag values and the outcomes of each downstream phase. -/
structure RunEnv where
  helpFlag : Bool
  args : List String
  git : GitEnv
  oldRef0 : String
  newRef0 : String
  sheetsFlag : Bool
  sheetsOk : Bool
  buildOk : Bool
  benchRunOk : Bool
  reportOk : Bool

/-- Embedding of `run` (src/main.go:73-130) as the sequence of phases
executed and the returned error: `--help` or an empty package-scope argument
list short-circuits to `runHelp` with a `nil` error; otherwise refs are
parsed, the optional sheets service is created, suites are built,
benchmarks run, and output is processed, each phase aborting on error. -/
def runModel (env : RunEnv) : List RunPhase × Option TopErr :=
  if env.helpFlag then ([.help], none)
  else if env.args = [] then ([.help], none)
  else
    match parseGitRefs env.git env.oldRef0 env.newRef0 with
    | .error e => ([.parseRefs], some (.git e))
    | .ok _ =>
      if env.sheetsFlag ∧ env.sheetsOk = false then
        ([.parseRefs, .sheets], some .sheetsErr)
      else
        let ph1 := if env.sheetsFlag then [RunPhase.parseRefs, .sheets]
                   else [RunPhase.parseRefs]
        if env.buildOk = false then (ph1 ++ [.build], some .buildErr)
        else if env.benchRunOk = false then
          (ph1 ++ [.build, .benchRun], some .runErr)
        else if env.reportOk = false then
          (ph1 ++ [.build, .benchRun, .report], some .reportErr)
        else (ph1 ++ [.build, .benchRun, .report], none)

/-- Embedding of `main` (src/main.go:66-71): exit code 0 when `run` returns
`nil`, exit code 1 otherwise. -/
def mainExitCode (r : Option TopErr) : Nat :=
  match r with
  | none => 0
  | some _ => 1

/-! ## The binary cache key (src/main.go:94-95, 313-314) -/

/-- Modelled from the spec: `testBinDir` is repository code outside src/;
per the spec it keys the binary cache directory on the ref and a hash of the
serialized package scope. The hash is abstracted as a parameter `hash`. -/
def testBinDir (hash : List String → String) (ref : String)
    (pkgFilter : List String) : String :=
  ref ++ "/bin/" ++ hash pkgFilter

/-- The cache key as `run` computes it (src/main.go:94-95 sorts the
positional package arguments with `sort.Strings` before any build; build
then calls `testBinDir` on the sorted scope, src/main.go:313-314). -/
def runCacheKey (hash : List String → String) (ref : String)
    (prArgs : List String) : String :=
  testBinDir hash ref (fileSetSorted prArgs)

/-! ## Helper lemmas -/

theorem fileSetSorted_sorted (s : fileSet) :
    List.Sorted (fun a b : String => a ≤ b) (fileSetSorted s) :=
  List.sorted_insertionSort _ s

theorem fileSetSorted_perm (s : fileSet) : (fileSetSorted s).Perm s :=
  List.perm_insertionSort _ s

theorem fileSetSorted_eq_of_perm (s t : fileSet) (h : s.Perm t) :
    fileSetSorted s = fileSetSorted t :=
  List.eq_of_perm_of_sorted
    (((fileSetSorted_perm s).trans h).trans (fileSetSorted_perm t).symm)
    (fileSetSorted_sorted s) (fileSetSorted_sorted t)

theorem runIter_no_fail (spawn : SuiteId → String → SpawnOutcome) (t : String)
    (h1 : (runSingleBench (spawn .old t)).err = none)
    (h2 : (runSingleBench (spawn .new t)).err = none) :
    runIter spawn t = ([⟨.old, t⟩, ⟨.new, t⟩], none) := by
  simp [runIter, h1, h2]

theorem runIters_no_fail (spawn : SuiteId → String → SpawnOutcome) (t : String)
    (h1 : (runSingleBench (spawn .old t)).err = none)
    (h2 : (runSingleBench (spawn .new t)).err = none) :
    ∀ n, runIters spawn t n
      = (List.flatten (List.replicate n [⟨.old, t⟩, ⟨.new, t⟩]), none) := by
  intro n
  induction n with
  | zero => simp [runIters]
  | succ n ih =>
    simp [runIters, runIter_no_fail spawn t h1 h2, ih, List.replicate_succ]

theorem runbenchcmpes_no_fail (spawn : SuiteId → String → SpawnOutcome)
    (hok : ∀ s t, (runSingleBench (spawn s t)).err = none) (n : Nat) :
    ∀ tests, runbenchcmpes spawn tests n
      = (tests.flatMap (fun t => List.flatten (List.replicate n [⟨.old, t⟩, ⟨.new, t⟩])),
         none) := by
  intro tests
  induction tests with
  | nil => simp [runbenchcmpes]
  | cons t ts ih =>
    simp [runbenchcmpes, runIters_no_fail spawn t (hok .old t) (hok .new t) n, ih]

/-! ## The claims -/

/-- C1: for every ordered test list and every `itersPerTest = n ≥ 1` all of
whose single-binary runs succeed, `runbenchcmpes` executes, for each test in
list order, exactly `n` iterations, each iteration running the old suite's
binary strictly before the new suite's; for `n = 2` and tests `[x]` the
sequence is exactly old(x), new(x), old(x), new(x). -/
theorem interleaving_order (spawn : SuiteId → String → SpawnOutcome)
    (tests : List String) (n : Nat) (hn : 1 ≤ n)
    (hok : ∀ s t, (runSingleBench (spawn s t)).err = none) :
    runbenchcmpes spawn tests n
      = (tests.flatMap (fun t => List.flatten (List.replicate n [⟨.old, t⟩, ⟨.new, t⟩])),
         none)
    ∧ ∀ x : String, runbenchcmpes spawn [x] 2
        = ([⟨.old, x⟩, ⟨.new, x⟩, ⟨.old, x⟩, ⟨.new, x⟩], none) := by
  refine ⟨runbenchcmpes_no_fail spawn hok n tests, fun x => ?_⟩
  simp [runbenchcmpes_no_fail spawn hok 2 [x], List.replicate]

theorem interleaving_order_witness :
    runbenchcmpes (fun _ _ => SpawnOutcome.ok) ["a"] 2
      = ([⟨.old, "a"⟩, ⟨.new, "a"⟩, ⟨.old, "a"⟩, ⟨.new, "a"⟩], none) :=
  (interleaving_order (fun _ _ => SpawnOutcome.ok) ["a"] 2 (by decide)
    (fun _ _ => rfl)).2 "a"

/-- C5: `intersectTests` contains exactly the names present in both sets
under exact string equality, and `fileSetSorted` returns a lexicographically
ordered sequence of exactly the set's elements that depends only on the
set's contents (it is invariant under permutation of the insertion order). -/
theorem intersect_and_sorted_spec :
    (∀ (a b : fileSet) (x : String), x ∈ intersectTests a b ↔ (x ∈ a ∧ x ∈ b))
    ∧ (∀ s : fileSet,
        List.Sorted (fun a b : String => a ≤ b) (fileSetSorted s)
        ∧ (fileSetSorted s).Perm s)
    ∧ (∀ s t : fileSet, s.Perm t → fileSetSorted s = fileSetSorted t) := by
  refine ⟨fun a b x => ?_, fun s => ⟨fileSetSorted_sorted s, fileSetSorted_perm s⟩,
    fileSetSorted_eq_of_perm⟩
  simp [intersectTests, List.mem_filter]

theorem intersect_and_sorted_spec_witness :
    ("b" ∈ intersectTests ["a", "b"] ["b", "c"]
      ↔ ("b" ∈ (["a", "b"] : fileSet) ∧ "b" ∈ (["b", "c"] : fileSet)))
    ∧ fileSetSorted ["b", "a"] = fileSetSorted ["a", "b"] :=
  ⟨intersect_and_sorted_spec.1 ["a", "b"] ["b", "c"] "b",
   intersect_and_sorted_spec.2.2 ["b", "a"] ["a", "b"] (List.Perm.swap "a" "b" [])⟩

/-- C9: the cache key is computed from the scope as sorted by `run`, so for
every hash function, revision and any two package-scope lists that are
permutations of each other the computed key is the same; in particular the
scopes ["./pkg/a", "./pkg/b"] and ["./pkg/b", "./pkg/a"] produce the same
cache key. -/
theorem cache_key_of_sorted_scope (hash : List String → String) (ref : String) :
    (∀ a b : List String, a.Perm b → runCacheKey hash ref a = runCacheKey hash ref b)
    ∧ runCacheKey hash ref ["./pkg/a", "./pkg/b"]
        = runCacheKey hash ref ["./pkg/b", "./pkg/a"] := by
  have key : ∀ a b : List String, a.Perm b →
      runCacheKey hash ref a = runCacheKey hash ref b := by
    intro a b hab
    simp [runCacheKey, testBinDir, fileSetSorted_eq_of_perm a b hab]
  exact ⟨key, key _ _ (List.Perm.swap "./pkg/b" "./pkg/a" [])⟩

theorem cache_key_of_sorted_scope_witness :
    runCacheKey (fun l => String.intercalate "," l) "r" ["x", "y"]
      = runCacheKey (fun l => String.intercalate "," l) "r" ["y", "x"] :=
  (cache_key_of_sorted_scope (fun l => String.intercalate "," l) "r").1
    ["x", "y"] ["y", "x"] (List.Perm.swap "y" "x" [])

theorem mem_fileSetInsert (fs : fileSet) (y x : String) :
    x ∈ fileSetInsert fs y ↔ x ∈ fs ∨ x = y := by
  unfold fileSetInsert
  split
  · next hy => constructor
               · exact fun h => Or.inl h
               · rintro (h | rfl)
                 · exact h
                 · exact hy
  · simp

theorem registerEntries_no_dir (entries : List DirEntry)
    (h : ∀ e ∈ entries, e.isDir = false) : ∀ tf : fileSet,
    (registerEntries tf entries).2 = none
    ∧ ∀ x, x ∈ (registerEntries tf entries).1
        ↔ (x ∈ tf ∨ x ∈ entries.map DirEntry.name) := by
  induction entries with
  | nil => intro tf; simp [registerEntries]
  | cons e es ih =>
    intro tf
    have he : e.isDir = false := h e (by simp)
    have hes : ∀ e ∈ es, e.isDir = false := fun e hmem => h e (by simp [hmem])
    have ihe := ih hes (fileSetInsert tf e.name)
    refine ⟨by simp [registerEntries, he, ihe.1], fun x => ?_⟩
    rw [show registerEntries tf (e :: es)
          = registerEntries (fileSetInsert tf e.name) es by
        simp [registerEntries, he]]
    rw [ihe.2 x, mem_fileSetInsert]
    simp
    tauto

theorem registerEntries_dir (entries : List DirEntry)
    (h : ∃ e ∈ entries, e.isDir = true) : ∀ tf : fileSet,
    ∃ n, (registerEntries tf entries).2 = some (.unexpectedDir n) := by
  induction entries with
  | nil => simp at h
  | cons e es ih =>
    intro tf
    by_cases he : e.isDir = true
    · exact ⟨e.name, by simp [registerEntries, he]⟩
    · have hes : ∃ e ∈ es, e.isDir = true := by
        rcases h with ⟨e2, hmem, hdir⟩
        rcases List.mem_cons.mp hmem with rfl | hmem2
        · exact absurd hdir he
        · exact ⟨e2, hmem2, hdir⟩
      rcases ih hes (fileSetInsert tf e.name) with ⟨n, hn⟩
      refine ⟨n, ?_⟩
      simp only [Bool.not_eq_true] at he
      simp [registerEntries, he, hn]

/-- Reduction of `benchSuiteBuild` on the cache-hit path. -/
theorem benchSuiteBuild_hit (env : BuildEnv) (entries : List DirEntry)
    (h1 : env.mkArtDirOk = true) (h2 : env.openOutOk = true)
    (h3 : env.statOk = true) (h4 : env.binDirExists0 = true)
    (h5 : env.readDir = some entries) :
    benchSuiteBuild env []
      = (match registerEntries [] entries with
         | (tf, some e) => ⟨.errored e, true, tf, false, false⟩
         | (tf, none) => ⟨.ok, true, tf, false, false⟩) := by
  simp [benchSuiteBuild, h1, h2, h3, h4, h5]

/-- C2: on a cache miss `build` creates `binDir`, and if any subsequent step
(checkout, post-checkout hook, package expansion, or a package's compile)
fails, the deferred cleanup removes `binDir` before the error is returned,
so `binDir` does not exist after `build` returns with an error; on success
`binDir` exists (so only a successful build is later treated as a cache
hit). -/
theorem build_rollback (env : BuildEnv)
    (h1 : env.mkArtDirOk = true) (h2 : env.openOutOk = true)
    (h3 : env.statOk = true) (h4 : env.binDirExists0 = false)
    (h5 : env.mkBinDirOk = true) :
    (∀ e, (benchSuiteBuild env []).outcome = .errored e →
        (benchSuiteBuild env []).binDirExists = false)
    ∧ ((benchSuiteBuild env []).outcome = .ok →
        (benchSuiteBuild env []).binDirExists = true) := by
  rcases hco : env.checkoutOk with _ | _
  · simp [benchSuiteBuild, h1, h2, h3, h4, h5, hco]
  · rcases hex : env.expand with _ | pkgs
    · simp [benchSuiteBuild, h1, h2, h3, h4, h5, hco, hex]
    · rcases hcp : compilePkgs env.compile [] pkgs with ⟨tf, err⟩
      cases err <;>
        simp [benchSuiteBuild, h1, h2, h3, h4, h5, hco, hex, hcp]

def rollbackEnv : BuildEnv where
  mkArtDirOk := true
  openOutOk := true
  statOk := true
  binDirExists0 := false
  readDir := none
  mkBinDirOk := true
  checkoutOk := false
  expand := some ["./pkg/a"]
  compile := fun _ => CompileOut.bin "a.test"

theorem build_rollback_witness :
    (benchSuiteBuild rollbackEnv []).binDirExists = false :=
  (build_rollback rollbackEnv rfl rfl rfl rfl rfl).1 .checkoutErr rfl

/-- C3: on a cache hit (`binDir` exists) `build` performs no checkout and no
compilation; if every entry of `binDir` is a regular file it registers every
entry name into `testFiles` and returns success, while any subdirectory
yields an `unexpectedDir` error; consequently a second build whose `binDir`
listing is exactly a successful first build's `testFiles` yields the same
`testFiles` set. -/
theorem build_cache_hit (env : BuildEnv) (entries : List DirEntry)
    (h1 : env.mkArtDirOk = true) (h2 : env.openOutOk = true)
    (h3 : env.statOk = true) (h4 : env.binDirExists0 = true)
    (h5 : env.readDir = some entries) :
    ((benchSuiteBuild env []).didCheckout = false
      ∧ (benchSuiteBuild env []).didCompile = false)
    ∧ ((∀ e ∈ entries, e.isDir = false) →
        (benchSuiteBuild env []).outcome = .ok
        ∧ ∀ x, x ∈ (benchSuiteBuild env []).testFiles
            ↔ x ∈ entries.map DirEntry.name)
    ∧ ((∃ e ∈ entries, e.isDir = true) →
        ∃ n, (benchSuiteBuild env []).outcome = .errored (.unexpectedDir n))
    ∧ (∀ env1 : BuildEnv, (benchSuiteBuild env1 []).outcome = .ok →
        entries = (benchSuiteBuild env1 []).testFiles.map (fun n => ⟨n, false⟩) →
        ∀ x, x ∈ (benchSuiteBuild env []).testFiles
            ↔ x ∈ (benchSuiteBuild env1 []).testFiles) := by
  rw [benchSuiteBuild_hit env entries h1 h2 h3 h4 h5]
  refine ⟨?_, ?_, ?_, ?_⟩
  · rcases hreg : registerEntries [] entries with ⟨tf, err⟩
    cases err <;> simp [hreg]
  · intro hnd
    have hr := registerEntries_no_dir entries hnd []
    rcases hreg : registerEntries [] entries with ⟨tf, err⟩
    rw [hreg] at hr
    cases err with
    | none => refine ⟨by simp, fun x => ?_⟩
              have := hr.2 x
              simp at this
              simpa using this
    | some e => simp at hr
  · intro hd
    rcases registerEntries_dir entries hd [] with ⟨n, hn⟩
    rcases hreg : registerEntries [] entries with ⟨tf, err⟩
    rw [hreg] at hn
    simp at hn
    subst hn
    exact ⟨n, by simp [hreg]⟩
  · intro env1 hok1 hentries x
    have hnd : ∀ e ∈ entries, e.isDir = false := by
      subst hentries
      intro e he
      rcases List.mem_map.mp he with ⟨n, _, rfl⟩
      rfl
    have hr := registerEntries_no_dir entries hnd []
    rcases hreg : registerEntries [] entries with ⟨tf, err⟩
    rw [hreg] at hr
    cases err with
    | none =>
      have := hr.2 x
      simp at this
      subst hentries
      simp [this, List.mem_map]
    | some e => simp at hr

def hitEnv : BuildEnv where
  mkArtDirOk := true
  openOutOk := true
  statOk := true
  binDirExists0 := true
  readDir := some [⟨"a.test", false⟩, ⟨"b.test", false⟩]
  mkBinDirOk := true
  checkoutOk := true
  expand := some []
  compile := fun _ => CompileOut.noBin

theorem build_cache_hit_witness :
    (benchSuiteBuild hitEnv []).didCheckout = false
    ∧ (benchSuiteBuild hitEnv []).didCompile = false :=
  (build_cache_hit hitEnv [⟨"a.test", false⟩, ⟨"b.test", false⟩]
    rfl rfl rfl rfl rfl).1

/-- C8: a suite whose `testFiles` is non-empty at entry makes `build` abort
(panic) before any filesystem or checkout action, with the suite state and
the pre-existing `binDir` unchanged; under the precondition that `testFiles`
is empty at entry, the abort branch is unreachable. -/
theorem build_exactly_once (env : BuildEnv) (tf0 : fileSet) :
    (tf0 ≠ [] → benchSuiteBuild env tf0
        = ⟨.panicked, env.binDirExists0, tf0, false, false⟩)
    ∧ (tf0 = [] → (benchSuiteBuild env tf0).outcome ≠ .panicked) := by
  constructor
  · intro h
    simp [benchSuiteBuild, h]
  · rintro rfl
    unfold benchSuiteBuild
    split
    · simp_all
    · split
      · simp
      · split
        · simp
        · split
          · simp
          · split
            · split
              · simp
              · split <;> simp
            · split
              · simp
              · split
                · simp
                · split
                  · simp
                  · split <;> simp

def sampleBuildEnv : BuildEnv where
  mkArtDirOk := true
  openOutOk := true
  statOk := true
  binDirExists0 := false
  readDir := none
  mkBinDirOk := true
  checkoutOk := true
  expand := some ["./pkg/a"]
  compile := fun _ => CompileOut.bin "a.test"

theorem build_exactly_once_witness :
    benchSuiteBuild sampleBuildEnv ["t"]
      = ⟨.panicked, false, ["t"], false, false⟩
    ∧ (benchSuiteBuild sampleBuildEnv []).outcome ≠ .panicked :=
  ⟨(build_exactly_once sampleBuildEnv ["t"]).1 (by simp),
   (build_exactly_once sampleBuildEnv []).2 rfl⟩

/-- C4: a benchmark binary exiting with status exactly 1 makes
`runSingleBench` log the benchmark-failure message and return success; any
other non-zero exit status or abnormal termination is a fatal error; in the
runner, exit status 1 everywhere lets the whole comparison complete, while
a different failure aborts it at the failing execution. -/
theorem exit_code_policy :
    runSingleBench (.exitErr 1) = ⟨none, true⟩
    ∧ (∀ c : Int, c ≠ 1 → runSingleBench (.exitErr c) = ⟨some .runError, false⟩)
    ∧ runSingleBench .otherErr = ⟨some .runError, false⟩
    ∧ (∀ (tests : List String) (n : Nat),
        runbenchcmpes (fun _ _ => .exitErr 1) tests n
          = (tests.flatMap
              (fun t => List.flatten (List.replicate n [⟨.old, t⟩, ⟨.new, t⟩])),
             none))
    ∧ (∀ (spawn : SuiteId → String → SpawnOutcome) (x : String)
        (ts : List String) (n : Nat), spawn .old x = .exitErr 2 →
        runbenchcmpes spawn (x :: ts) (n + 1) = ([⟨.old, x⟩], some .runError)) := by
  refine ⟨rfl, fun c hc => by simp [runSingleBench, hc], rfl,
    fun tests n =>
      runbenchcmpes_no_fail (fun _ _ => .exitErr 1)
        (fun s t => (by decide : (runSingleBench (SpawnOutcome.exitErr 1)).err = none))
        n tests,
    fun spawn x ts n h => ?_⟩
  simp [runbenchcmpes, runIters, runIter, h, runSingleBench]

theorem exit_code_policy_witness :
    runSingleBench (.exitErr 2) = ⟨some .runError, false⟩
    ∧ runbenchcmpes (fun _ _ => .exitErr 2) ["x"] 1
        = ([⟨.old, "x"⟩], some .runError) :=
  ⟨exit_code_policy.2.1 2 (by decide),
   exit_code_policy.2.2.2.2 (fun _ _ => .exitErr 2) "x" [] 0 rfl⟩

/-- C6: in `parseGitRefs`, an empty `newRef` is resolved to the current
checked-out revision and an empty `oldRef` to the immediate ancestor of the
already-resolved `newRef`; each ref is shortened and validated, a shortened
form that fails validation yields an invalid-ref error, and when ref
parsing fails `run` returns before any build phase. -/
theorem parse_git_refs_spec (g : GitEnv) (c p o n : String) :
    (g.curRef = some c → parseGitRefs g o "" = parseGitRefs g o c)
    ∧ (n ≠ "" → g.valid (g.shorten n) = some false →
        parseGitRefs g o n = .error (.invalidRef (g.shorten n)))
    ∧ (n ≠ "" → g.valid (g.shorten n) = some true →
        g.prevRef (g.shorten n) = some p →
        parseGitRefs g "" n = parseGitRefs g p n)
    ∧ (o ≠ "" → n ≠ "" → g.valid (g.shorten n) = some true →
        g.valid (g.shorten o) = some false →
        parseGitRefs g o n = .error (.invalidRef (g.shorten o)))
    ∧ (o ≠ "" → n ≠ "" → g.valid (g.shorten n) = some true →
        g.valid (g.shorten o) = some true →
        parseGitRefs g o n = .ok (g.shorten o, g.shorten n))
    ∧ (∀ (env : RunEnv) (e : GitErr), env.helpFlag = false → env.args ≠ [] →
        parseGitRefs env.git env.oldRef0 env.newRef0 = .error e →
        runModel env = ([.parseRefs], some (.git e))) := by
  refine ⟨fun hc => ?_, fun hn hv => ?_, fun hn hv hp => ?_,
    fun ho hn hvn hvo => ?_, fun ho hn hvn hvo => ?_,
    fun env e hh ha hp => ?_⟩
  · by_cases hc0 : c = "" <;> simp [parseGitRefs, hc, hc0]
  · simp [parseGitRefs, hn, hv]
  · by_cases hp0 : p = "" <;> simp [parseGitRefs, hn, hv, hp, hp0]
  · simp [parseGitRefs, hn, hvn, ho, hvo]
  · simp [parseGitRefs, hn, hvn, ho, hvo]
  · simp [runModel, hh, ha, hp]

def sampleGit : GitEnv where
  curRef := some "deadbeef"
  prevRef := fun r => some (r ++ "~")
  shorten := fun r => r
  valid := fun r => some (r != "bad")

theorem parse_git_refs_spec_witness :
    parseGitRefs sampleGit "o1" "n1" = .ok ("o1", "n1") :=
  (parse_git_refs_spec sampleGit "c" "p" "o1" "n1").2.2.2.2.1
    (by decide) (by decide) rfl rfl

theorem runBuilds_all_build (buildOk : Nat → Bool) :
    ∀ (k i : Nat), ∀ e ∈ (runBuilds buildOk i k).1, ∃ j, e = .build j := by
  intro k
  induction k with
  | zero => intro i e he; simp [runBuilds] at he
  | succ k ih =>
    intro i e he
    by_cases hb : buildOk i
    · rcases hr : runBuilds buildOk (i + 1) k with ⟨es, ok⟩
      rw [show (runBuilds buildOk i (k + 1)).1 = .build i :: es by
        simp [runBuilds, hb, hr]] at he
      rcases List.mem_cons.mp he with rfl | he2
      · exact ⟨i, rfl⟩
      · have := ih (i + 1) e
        rw [hr] at this
        exact this he2
    · rw [show (runBuilds buildOk i (k + 1)).1 = [.build i] by
        simp [runBuilds, hb]] at he
      simp at he
      exact ⟨i, he⟩

/-- C7: when the orchestrator finds a checked-out symbolic reference, the
build phase's event trace ends, on every outcome of the per-suite builds,
with exactly one restoring checkout of that reference, placed after all
build events; when no symbolic reference exists, no restoring checkout is
performed; a symbolic-ref query error aborts before any build. -/
theorem checkout_restoration (buildOk : Nat → Bool) (numSuites : Nat) :
    (∀ r, (buildBenches (.found r) buildOk numSuites).1.count (.restore r) = 1
      ∧ ∃ bs, (buildBenches (.found r) buildOk numSuites).1 = bs ++ [.restore r]
          ∧ ∀ e ∈ bs, ∀ s, e ≠ BBEvent.restore s)
    ∧ (∀ s, BBEvent.restore s ∉ (buildBenches .notFound buildOk numSuites).1)
    ∧ buildBenches .err buildOk numSuites = ([], false) := by
  have hall : ∀ e ∈ (runBuilds buildOk 0 numSuites).1, ∀ s,
      e ≠ BBEvent.restore s := by
    intro e he s
    rcases runBuilds_all_build buildOk numSuites 0 e he with ⟨j, rfl⟩
    simp
  rcases hr : runBuilds buildOk 0 numSuites with ⟨es, ok⟩
  rw [hr] at hall
  refine ⟨fun r => ⟨?_, es, by simp [buildBenches, hr], hall⟩, fun s hs => ?_, rfl⟩
  · have hz : es.count (BBEvent.restore r) = 0 :=
      List.count_eq_zero.mpr (fun hmem => (hall _ hmem r) rfl)
    simp [buildBenches, hr, List.count_append, hz]
  · rw [show (buildBenches .notFound buildOk numSuites).1 = es by
      simp [buildBenches, hr]] at hs
    exact (hall _ hs s) rfl

theorem checkout_restoration_witness :
    (buildBenches (.found "main") (fun _ => true) 2).1.count (.restore "main")
      = 1 :=
  ((checkout_restoration (fun _ => true) 2).1 "main").1

/-- C10: with no positional package-scope arguments, `run` takes the help
path: it prints the usage and help text, performs no ref resolution, build,
benchmark run or report, and returns `nil`, so `main` exits with code 0. -/
theorem help_path_exit_zero (env : RunEnv) (h : env.args = []) :
    runModel env = ([.help], none)
    ∧ mainExitCode (runModel env).2 = 0
    ∧ runHelp = ([.usageLine, .blankLine, .helpText], none) := by
  have hrm : runModel env = ([.help], none) := by
    by_cases hh : env.helpFlag <;> simp [runModel, hh, h]
  exact ⟨hrm, by simp [hrm, mainExitCode], rfl⟩

def emptyArgsEnv : RunEnv where
  helpFlag := false
  args := []
  git := sampleGit
  oldRef0 := ""
  newRef0 := ""
  sheetsFlag := false
  sheetsOk := true
  buildOk := true
  benchRunOk := true
  reportOk := true

theorem help_path_exit_zero_witness :
    runModel emptyArgsEnv = ([.help], none)
    ∧ mainExitCode (runModel emptyArgsEnv).2 = 0
    ∧ runHelp = ([.usageLine, .blankLine, .helpText], none) :=
  help_path_exit_zero emptyArgsEnv rfl

end Benchcmp
